import Mathlib

/-!
Verification of the consensus synchronization/certification layer of the
zksync-era repository, together with three auxiliary components
(prover-queue metrics reporting, factory-dependency insertion, and the
boxed dynamic RPC client).

The consensus core (Block Store, Genesis Reconciler, Certifying Role and
the two fetchers) is exercised by `core/lib/zksync_core/src/consensus/tests.rs`
but its implementation lives outside the provided sources, so it is
modelled from the specification.  The remaining components are embedded
directly from their Rust sources.
-/

/-- A block payload: an opaque byte blob, modelled as a natural number.
Payloads are addressed by BlockNumber and content hash. -/
abbrev Payload := Nat

/-- Modelled from the spec: the content hash of a payload.  Payload
content is opaque and addressed by its hash, so the hash function is
modelled as the identity on the opaque content. -/
def payloadHash (p : Payload) : Nat := p

/-- A block as supplied to `queue_payload`: a BlockNumber plus payload. -/
structure Block where
  number : Nat
  payload : Payload
deriving DecidableEq

/-- Modelled from the spec: a certificate binds a BlockNumber to a
payload hash and carries some number of distinct validator signatures. -/
structure Certificate where
  number : Nat
  hash : Nat
  sigs : Nat
deriving DecidableEq

/-- Errors surfaced by Block Store persistence operations (spec §7). -/
inductive StoreError where
  | OutOfOrder
  | ContentMismatch
deriving DecidableEq

/-- Modelled from the spec: the Block Store state, missing from the
provided sources.  `first` is the lowest BlockNumber the node tracks;
`payloads` holds the persisted payloads for blocks `first, first+1, ...`
(contiguous); `certs` the persisted certificates for blocks
`first, first+1, ...` (contiguous). -/
structure BlockStore where
  first : Nat
  payloads : List Payload
  certs : List Certificate
deriving DecidableEq

/-- The BlockNumber the next queued payload must carry:
`last_payload + 1`, or `first` when no payload is persisted yet. -/
def BlockStore.nextPayload (s : BlockStore) : Nat := s.first + s.payloads.length

/-- The BlockNumber the next persisted certificate must carry:
`last_certificate + 1`, or `first` when no certificate is persisted yet. -/
def BlockStore.nextCert (s : BlockStore) : Nat := s.first + s.certs.length

/-- Cursor `last_payload`: highest BlockNumber with a persisted payload
(`none` when no payload is persisted). -/
def BlockStore.last_payload (s : BlockStore) : Option Nat :=
  if s.payloads.isEmpty then none else some (s.first + s.payloads.length - 1)

/-- Cursor `last_certificate`: highest contiguous BlockNumber with a
persisted certificate (`none` when no certificate is persisted). -/
def BlockStore.last_certificate (s : BlockStore) : Option Nat :=
  if s.certs.isEmpty then none else some (s.first + s.certs.length - 1)

/-- Non-blocking payload read: `none` for numbers outside the persisted range. -/
def BlockStore.payload (s : BlockStore) (n : Nat) : Option Payload :=
  if s.first ≤ n then s.payloads.get? (n - s.first) else none

/-- Non-blocking certificate read: `none` for numbers outside the persisted range. -/
def BlockStore.certificate (s : BlockStore) (n : Nat) : Option Certificate :=
  if s.first ≤ n then s.certs.get? (n - s.first) else none

/-- Modelled from the spec: `queue_payload(block)` (spec §4.1), missing
from the provided sources.  Inserts a payload whose BlockNumber must
equal `last_payload + 1` (or `first` for the very first call); an
identical payload already present is an idempotent no-op; a different
payload already present is a fatal mismatch; any other BlockNumber
fails with `OutOfOrder`. -/
def BlockStore.queue_payload (s : BlockStore) (b : Block) : Except StoreError BlockStore :=
  if b.number = s.nextPayload then
    .ok { s with payloads := s.payloads ++ [b.payload] }
  else
    match s.payload b.number with
    | some p => if p = b.payload then .ok s else .error .ContentMismatch
    | none => .error .OutOfOrder

/-- Modelled from the spec: certificate persistence (spec §3, §4.3 step 3),
missing from the provided sources.  Certificates are contiguous from
`first`, may only certify a block whose payload is persisted, and may
only bind the hash of the payload actually persisted for that number. -/
def BlockStore.persist_certificate (s : BlockStore) (c : Certificate) :
    Except StoreError BlockStore :=
  if c.number = s.nextCert then
    match s.payload c.number with
    | some p =>
      if c.hash = payloadHash p then .ok { s with certs := s.certs ++ [c] }
      else .error .ContentMismatch
    | none => .error .OutOfOrder
  else .error .OutOfOrder

/-- One cursor-affecting Block Store operation. -/
inductive StoreOp where
  | queue (b : Block)
  | persist (c : Certificate)
deriving DecidableEq

/-- Apply one operation to the store. -/
def applyOp (s : BlockStore) (op : StoreOp) : Except StoreError BlockStore :=
  match op with
  | .queue b => s.queue_payload b
  | .persist c => s.persist_certificate c

/-- `Reachable s t`: store state `t` arises from `s` by some sequence of
successful `queue_payload` / certificate-persist operations. -/
inductive Reachable : BlockStore → BlockStore → Prop where
  | refl (s : BlockStore) : Reachable s s
  | step {s t u : BlockStore} (op : StoreOp) :
      Reachable s t → applyOp t op = .ok u → Reachable s u

/-- Certificates never outrun payloads, counted from `first`. -/
def certsWithinPayloads (s : BlockStore) : Prop :=
  s.certs.length ≤ s.payloads.length

theorem queue_payload_certsWithin {s t : BlockStore} {b : Block}
    (hinv : certsWithinPayloads s) (h : s.queue_payload b = .ok t) :
    certsWithinPayloads t := by
  unfold BlockStore.queue_payload at h
  split at h
  · cases h
    simpa [certsWithinPayloads] using Nat.le_succ_of_le hinv
  · split at h
    · split at h
      · cases h; exact hinv
      · cases h
    · cases h

theorem payload_some_lt {s : BlockStore} {n : Nat} {p : Payload}
    (hp : s.payload n = some p) : n - s.first < s.payloads.length ∧ s.first ≤ n := by
  unfold BlockStore.payload at hp
  split at hp
  · rename_i hle
    exact ⟨(List.get?_eq_some.mp hp).1, hle⟩
  · cases hp

theorem persist_certificate_certsWithin {s t : BlockStore} {c : Certificate}
    (h : s.persist_certificate c = .ok t) : certsWithinPayloads t := by
  unfold BlockStore.persist_certificate at h
  split at h
  · rename_i hn
    cases hp : s.payload c.number with
    | none => rw [hp] at h; cases h
    | some p =>
      rw [hp] at h
      dsimp only at h
      by_cases hh : c.hash = payloadHash p
      · rw [if_pos hh] at h
        cases h
        have hb := payload_some_lt hp
        have hnum : c.number - s.first = s.certs.length := by
          rw [hn]; unfold BlockStore.nextCert; omega
        unfold certsWithinPayloads
        simp only [List.length_append, List.length_cons, List.length_nil]
        omega
      · rw [if_neg hh] at h
        cases h
  · cases h

theorem reachable_certsWithin {s t : BlockStore}
    (hinv : certsWithinPayloads s) (h : Reachable s t) : certsWithinPayloads t := by
  induction h with
  | refl => exact hinv
  | step op hreach hok ih =>
    cases op with
    | queue b => exact queue_payload_certsWithin ih hok
    | persist c => exact persist_certificate_certsWithin hok

/-- **C1.** For every sequence of successful `queue_payload` /
certificate-persist operations from a store whose certificates do not
outrun its payloads, `first ≤ last_certificate ≤ last_payload` holds
after every operation (certificates never outrun payloads). -/
theorem C1_cursor_monotonicity {s t : BlockStore}
    (hinv : certsWithinPayloads s) (h : Reachable s t) :
    certsWithinPayloads t ∧
      ∀ lc lp, t.last_certificate = some lc → t.last_payload = some lp →
        t.first ≤ lc ∧ lc ≤ lp := by
  have hw := reachable_certsWithin hinv h
  refine ⟨hw, ?_⟩
  intro lc lp hlc hlp
  unfold BlockStore.last_certificate at hlc
  unfold BlockStore.last_payload at hlp
  split at hlc
  · cases hlc
  · split at hlp
    · cases hlp
    · cases hlc; cases hlp
      rename_i hcne hpne
      have hc1 : 1 ≤ t.certs.length := by
        cases hc : t.certs with
        | nil => simp [hc] at hcne
        | cons a l => simp [hc]
      refine ⟨by omega, ?_⟩
      have hcw := hw
      unfold certsWithinPayloads at hcw
      omega

/-- Witness for C1: a two-operation run from a snapshot store starting at
block 4 keeps the cursors ordered. -/
theorem C1_cursor_monotonicity_witness :
    ({ first := 4, payloads := [7], certs := [⟨4, 7, 3⟩] } : BlockStore).first ≤ 4 ∧ 4 ≤ 4 := by
  have hstep1 : applyOp { first := 4, payloads := [], certs := [] } (.queue ⟨4, 7⟩) =
      .ok { first := 4, payloads := [7], certs := [] } := by rfl
  have hstep2 : applyOp { first := 4, payloads := [7], certs := [] } (.persist ⟨4, 7, 3⟩) =
      .ok { first := 4, payloads := [7], certs := [⟨4, 7, 3⟩] } := by rfl
  have hr : Reachable { first := 4, payloads := [], certs := [] }
      { first := 4, payloads := [7], certs := [⟨4, 7, 3⟩] } :=
    Reachable.step (.persist ⟨4, 7, 3⟩)
      (Reachable.step (.queue ⟨4, 7⟩) (Reachable.refl _) hstep1) hstep2
  exact (C1_cursor_monotonicity (by simp [certsWithinPayloads]) hr).2 4 4 (by rfl) (by rfl)

theorem nextPayload_as_cursor (s : BlockStore) (n : Nat) :
    (match s.last_payload with
      | none => n = s.first
      | some lp => n = lp + 1) ↔ n = s.nextPayload := by
  unfold BlockStore.last_payload BlockStore.nextPayload
  cases hp : s.payloads with
  | nil => simp
  | cons a l =>
    simp only [List.isEmpty_cons, Bool.false_eq_true, if_false, List.length_cons]
    omega

theorem payload_some_ne_next {s : BlockStore} {n : Nat} {p : Payload}
    (hp : s.payload n = some p) : n ≠ s.nextPayload := by
  have := payload_some_lt hp
  unfold BlockStore.nextPayload
  omega

/-- **C2.** The `queue_payload` contract: a block numbered `last_payload + 1`
(or `first` when no payload is queued yet) is inserted; an identical payload
already present makes the call an idempotent no-op; a different payload
already present is a fatal content mismatch; any other BlockNumber fails
with `OutOfOrder`. -/
theorem C2_queue_payload_contract (s : BlockStore) (b : Block) :
    ((match s.last_payload with
      | none => b.number = s.first
      | some lp => b.number = lp + 1) →
      s.queue_payload b = .ok { s with payloads := s.payloads ++ [b.payload] }) ∧
    (s.payload b.number = some b.payload → s.queue_payload b = .ok s) ∧
    (∀ p, s.payload b.number = some p → p ≠ b.payload →
      s.queue_payload b = .error .ContentMismatch) ∧
    (b.number ≠ s.nextPayload → s.payload b.number = none →
      s.queue_payload b = .error .OutOfOrder) := by
  refine ⟨?_, ?_, ?_, ?_⟩
  · intro hc
    have hn : b.number = s.nextPayload := (nextPayload_as_cursor s b.number).mp hc
    unfold BlockStore.queue_payload
    rw [if_pos hn]
  · intro hp
    have hne := payload_some_ne_next hp
    unfold BlockStore.queue_payload
    rw [if_neg hne, hp]
    dsimp only
    rw [if_pos rfl]
  · intro p hp hne'
    have hne := payload_some_ne_next hp
    unfold BlockStore.queue_payload
    rw [if_neg hne, hp]
    dsimp only
    rw [if_neg hne']
  · intro hne hp
    unfold BlockStore.queue_payload
    rw [if_neg hne, hp]

/-- Witness for C2: inserting block 4 into an empty snapshot store starting
at 4 appends its payload; re-queueing it afterwards is a no-op. -/
theorem C2_queue_payload_contract_witness :
    ({ first := 4, payloads := [], certs := [] } : BlockStore).queue_payload ⟨4, 7⟩ =
      .ok { first := 4, payloads := [7], certs := [] } ∧
    ({ first := 4, payloads := [7], certs := [] } : BlockStore).queue_payload ⟨4, 7⟩ =
      .ok { first := 4, payloads := [7], certs := [] } := by
  constructor
  · exact (C2_queue_payload_contract { first := 4, payloads := [], certs := [] } ⟨4, 7⟩).1
      (by simp [BlockStore.last_payload])
  · exact (C2_queue_payload_contract { first := 4, payloads := [7], certs := [] } ⟨4, 7⟩).2.1
      (by simp [BlockStore.payload])

/-- Modelled from the spec: a Genesis/Setup — validator set, first
BlockNumber the set is responsible for, and chain identifier (spec §3). -/
structure Genesis where
  validators : List Nat
  first_block : Nat
  chain_id : Nat
deriving DecidableEq

/-- Error surfaced by genesis reconciliation (spec §7). -/
inductive GenesisError where
  | GenesisMismatch
deriving DecidableEq

/-- Modelled from the spec: a node's store — the optional authoritative
genesis plus the Block Store state (spec §4.2, §4.6). -/
structure ConsensusStore where
  genesis : Option Genesis
  blocks : BlockStore
deriving DecidableEq

/-- Modelled from the spec: `try_update_genesis(candidate)` (spec §4.2),
missing from the provided sources.  No local genesis → adopt the candidate
and set `first = candidate.first_block`; identical local genesis → no-op
success; incompatible local genesis → `GenesisMismatch`. -/
def ConsensusStore.try_update_genesis (s : ConsensusStore) (candidate : Genesis) :
    Except GenesisError ConsensusStore :=
  match s.genesis with
  | none =>
    .ok { genesis := some candidate,
          blocks := { s.blocks with first := candidate.first_block } }
  | some g => if g = candidate then .ok s else .error .GenesisMismatch

/-- **C3.** Genesis immutability: a second `try_update_genesis` with the
same genesis succeeds idempotently; a candidate differing from the stored
genesis only in validator set for the same chain identifier fails with
`GenesisMismatch` (so no updated store is produced and the stored genesis
stays as it was); with no local genesis the candidate is adopted and
`first` is set to `candidate.first_block`. -/
theorem C3_genesis_immutability (s : ConsensusStore) (g c : Genesis) :
    (∀ s1, s.try_update_genesis g = .ok s1 → s1.try_update_genesis g = .ok s1) ∧
    (s.genesis = some g → c.validators ≠ g.validators → c.chain_id = g.chain_id →
      c.first_block = g.first_block →
      s.try_update_genesis c = .error .GenesisMismatch) ∧
    (s.genesis = none →
      s.try_update_genesis c =
        .ok { genesis := some c, blocks := { s.blocks with first := c.first_block } }) := by
  refine ⟨?_, ?_, ?_⟩
  · intro s1 h1
    unfold ConsensusStore.try_update_genesis at h1 ⊢
    cases hg : s.genesis with
    | none =>
      rw [hg] at h1
      cases h1
      dsimp only
      rw [if_pos rfl]
    | some g0 =>
      rw [hg] at h1
      dsimp only at h1
      by_cases he : g0 = g
      · rw [if_pos he] at h1
        cases h1
        rw [hg]
        dsimp only
        rw [if_pos he]
      · rw [if_neg he] at h1
        cases h1
  · intro hg hv _ _
    unfold ConsensusStore.try_update_genesis
    rw [hg]
    dsimp only
    rw [if_neg]
    intro he
    exact hv (by rw [he])
  · intro hg
    unfold ConsensusStore.try_update_genesis
    rw [hg]

/-- Witness for C3: a store holding genesis `⟨[1,2,3],0,1337⟩` accepts the
same genesis again and rejects one with a different validator set. -/
theorem C3_genesis_immutability_witness :
    ({ genesis := some ⟨[1, 2, 3], 0, 1337⟩,
       blocks := { first := 0, payloads := [], certs := [] } } :
        ConsensusStore).try_update_genesis ⟨[1, 2, 3], 0, 1337⟩ =
      .ok { genesis := some ⟨[1, 2, 3], 0, 1337⟩,
            blocks := { first := 0, payloads := [], certs := [] } } ∧
    ({ genesis := some ⟨[1, 2, 3], 0, 1337⟩,
       blocks := { first := 0, payloads := [], certs := [] } } :
        ConsensusStore).try_update_genesis ⟨[4, 5, 6], 0, 1337⟩ =
      .error .GenesisMismatch := by
  constructor
  · exact (C3_genesis_immutability
      { genesis := none, blocks := { first := 0, payloads := [], certs := [] } }
      ⟨[1, 2, 3], 0, 1337⟩ ⟨[1, 2, 3], 0, 1337⟩).1 _ (by rfl)
  · exact (C3_genesis_immutability
      { genesis := some ⟨[1, 2, 3], 0, 1337⟩,
        blocks := { first := 0, payloads := [], certs := [] } }
      ⟨[1, 2, 3], 0, 1337⟩ ⟨[4, 5, 6], 0, 1337⟩).2.1 (by rfl) (by decide) (by rfl) (by rfl)

/-- Modelled from the spec: the maximal number of byzantine faults `f`
tolerated by a validator set of the given size (quorum is ≥ 2f+1 out of
3f+1, spec glossary). -/
def faultyBound (n : Nat) : Nat := (n - 1) / 3

/-- Modelled from the spec: the quorum threshold `2f+1` for a validator
set of size `n`. -/
def quorumThreshold (n : Nat) : Nat := 2 * faultyBound n + 1

/-- Modelled from the spec: verification of one peer response
(payload, certificate) by the Peer-Verified Fetcher (spec §4.4, §8.5):
the certificate's signatures must reach quorum of the local genesis
validator set, its bound hash must equal the hash of the received
payload, and when a payload is already persisted locally for that
BlockNumber the received payload must agree with it. -/
def responseVerifies (g : Genesis) (s : BlockStore) (p : Payload) (c : Certificate) : Bool :=
  decide (quorumThreshold g.validators.length ≤ c.sigs) &&
  decide (c.hash = payloadHash p) &&
  (match s.payload c.number with
   | some q => decide (q = p)
   | none => true)

/-- Modelled from the spec: the Peer-Verified Fetcher's handling of one
peer response (spec §4.4), missing from the provided sources.  On
verification success it persists the payload (if new) and then the
certificate through the Block Store; on verification failure the
response is discarded (another peer will be tried) — never fatal. -/
def processResponse (g : Genesis) (s : BlockStore) (p : Payload) (c : Certificate) :
    Except StoreError BlockStore :=
  if responseVerifies g s p c then do
    let s1 ← s.queue_payload ⟨c.number, p⟩
    s1.persist_certificate c
  else .ok s

/-- **C6.** A certificate whose signatures do not reach quorum, or whose
bound hash does not match the locally-held payload, is rejected without
error: the store is unchanged (so `last_certificate` does not advance),
and any subsequently supplied valid response for the same BlockNumber is
still processed exactly as if the rejection had never happened. -/
theorem C6_verification_rejection (g : Genesis) (s : BlockStore) (p : Payload) (c : Certificate)
    (hbad : c.sigs < quorumThreshold g.validators.length ∨
      ∃ q, s.payload c.number = some q ∧ c.hash ≠ payloadHash q) :
    processResponse g s p c = .ok s ∧
    ∀ p2 c2 t, processResponse g s p2 c2 = .ok t →
      (do
        let s1 ← processResponse g s p c
        processResponse g s1 p2 c2) = .ok t := by
  have hv : responseVerifies g s p c = false := by
    unfold responseVerifies
    rcases hbad with hq | ⟨q, hq, hne⟩
    · simp [Nat.not_le.mpr hq]
    · rw [hq]
      by_cases hh : c.hash = payloadHash p
      · have hqp : q ≠ p := by
          intro he
          exact hne (by rw [he]; exact hh)
        simp [hh, hqp]
      · simp [hh]
  have h1 : processResponse g s p c = .ok s := by
    unfold processResponse
    rw [hv]
    rfl
  refine ⟨h1, ?_⟩
  intro p2 c2 t ht
  rw [h1]
  simpa using ht

/-- Witness for C6: with a 4-validator genesis (quorum 3), a certificate
binding the wrong hash for block 0 is rejected leaving the one-payload
store unchanged, and a valid certificate for block 0 is then accepted. -/
theorem C6_verification_rejection_witness :
    processResponse ⟨[1, 2, 3, 4], 0, 7⟩ { first := 0, payloads := [5], certs := [] } 9 ⟨0, 9, 3⟩ =
      .ok { first := 0, payloads := [5], certs := [] } ∧
    (do
      let s1 ← processResponse ⟨[1, 2, 3, 4], 0, 7⟩
        { first := 0, payloads := [5], certs := [] } 9 ⟨0, 9, 3⟩
      processResponse ⟨[1, 2, 3, 4], 0, 7⟩ s1 5 ⟨0, 5, 3⟩) =
      .ok { first := 0, payloads := [5], certs := [⟨0, 5, 3⟩] } := by
  have h := C6_verification_rejection ⟨[1, 2, 3, 4], 0, 7⟩
    { first := 0, payloads := [5], certs := [] } 9 ⟨0, 9, 3⟩
    (Or.inr ⟨5, by rfl, by decide⟩)
  exact ⟨h.1, h.2 5 ⟨0, 5, 3⟩ { first := 0, payloads := [5], certs := [⟨0, 5, 3⟩] } (by rfl)⟩

theorem payload_at_add (s : BlockStore) (i : Nat) :
    s.payload (s.first + i) = s.payloads[i]? := by
  unfold BlockStore.payload
  rw [if_pos (Nat.le_add_right _ _), List.get?_eq_getElem?]
  congr 1
  omega

theorem certificate_at_add (s : BlockStore) (i : Nat) :
    s.certificate (s.first + i) = s.certs[i]? := by
  unfold BlockStore.certificate
  rw [if_pos (Nat.le_add_right _ _), List.get?_eq_getElem?]
  congr 1
  omega

/-- Modelled from the spec: the Peer-Verified Fetcher's replication loop
(spec §4.4), missing from the provided sources.  For each BlockNumber
beyond the local `last_certificate` it requests the payload and
certificate from a peer (here: the validator's store) and processes the
response; it stops when the peer has nothing more. -/
def runFetcher (g : Genesis) (v : BlockStore) (s : BlockStore) :
    Nat → Except StoreError BlockStore
  | 0 => .ok s
  | steps + 1 =>
    match v.payload s.nextCert, v.certificate s.nextCert with
    | some p, some c =>
      match processResponse g s p c with
      | .ok s1 => runFetcher g v s1 steps
      | .error e => .error e
    | _, _ => .ok s

/-- The peer's store is fully certified and internally consistent:
certificates exist for every payload, are numbered contiguously from
`first`, bind the persisted payload hashes, and carry quorum signatures. -/
def certifiedStore (g : Genesis) (v : BlockStore) : Prop :=
  v.certs.length = v.payloads.length ∧
  ∀ i c, v.certs[i]? = some c →
    c.number = v.first + i ∧
    (∀ p, v.payloads[i]? = some p → c.hash = payloadHash p) ∧
    quorumThreshold g.validators.length ≤ c.sigs

theorem runFetcher_complete (g : Genesis) (v : BlockStore) (hv : certifiedStore g v)
    (S : Nat) (hS : S ≤ v.certs.length) :
    ∀ r k, k + r = v.certs.length - S →
      runFetcher g v
        { first := v.first + S, payloads := (v.payloads.drop S).take k,
          certs := (v.certs.drop S).take k } r =
      .ok { first := v.first + S, payloads := v.payloads.drop S,
            certs := v.certs.drop S } := by
  obtain ⟨hlen, hcert⟩ := hv
  intro r
  induction r with
  | zero =>
    intro k hk
    have hkP : (v.payloads.drop S).length = k := by
      rw [List.length_drop]; omega
    have hkC : (v.certs.drop S).length = k := by
      rw [List.length_drop]; omega
    have hP : (v.payloads.drop S).take k = v.payloads.drop S := by
      rw [← hkP]; exact List.take_length _
    have hC : (v.certs.drop S).take k = v.certs.drop S := by
      rw [← hkC]; exact List.take_length _
    rw [hP, hC]
    rfl
  | succ r ih =>
    intro k hk
    have hklt : S + k < v.certs.length := by omega
    have hkplt : S + k < v.payloads.length := by omega
    have hkPle : k ≤ (v.payloads.drop S).length := by
      rw [List.length_drop]; omega
    have hkCle : k ≤ (v.certs.drop S).length := by
      rw [List.length_drop]; omega
    obtain ⟨p, hpv⟩ : ∃ q, v.payloads[S + k]? = some q :=
      ⟨_, List.getElem?_eq_getElem hkplt⟩
    obtain ⟨c, hcv⟩ : ∃ q, v.certs[S + k]? = some q :=
      ⟨_, List.getElem?_eq_getElem hklt⟩
    obtain ⟨hcnum, hchash, hcsigs⟩ := hcert (S + k) c hcv
    have hchp : c.hash = payloadHash p := hchash p hpv
    set s : BlockStore :=
      { first := v.first + S, payloads := (v.payloads.drop S).take k,
        certs := (v.certs.drop S).take k } with hs_def
    have hlenP : s.payloads.length = k := by
      rw [hs_def]
      simp only [List.length_take, List.length_drop]
      omega
    have hlenC : s.certs.length = k := by
      rw [hs_def]
      simp only [List.length_take, List.length_drop]
      omega
    have hnext : s.nextCert = v.first + (S + k) := by
      unfold BlockStore.nextCert
      rw [hlenC, hs_def]
      dsimp only
      omega
    have hnextP : s.nextPayload = v.first + (S + k) := by
      unfold BlockStore.nextPayload
      rw [hlenP, hs_def]
      dsimp only
      omega
    have hcnum2 : c.number = s.nextPayload := by rw [hnextP, hcnum]
    have hlocal : s.payload c.number = none := by
      have : c.number = s.first + k := by
        rw [hcnum, hs_def]; dsimp only; omega
      rw [this, payload_at_add]
      exact List.getElem?_eq_none (le_of_eq hlenP)
    have hver : responseVerifies g s p c = true := by
      unfold responseVerifies
      rw [hlocal]
      simp [hcsigs, hchp]
    set s1 : BlockStore :=
      { first := v.first + S, payloads := (v.payloads.drop S).take k ++ [p],
        certs := (v.certs.drop S).take k } with hs1_def
    have hqueue : s.queue_payload ⟨c.number, p⟩ = .ok s1 := by
      unfold BlockStore.queue_payload
      rw [if_pos hcnum2]
    have hs1payload : s1.payload c.number = some p := by
      have hcn : c.number = s1.first + k := by
        rw [hcnum, hs1_def]; dsimp only; omega
      rw [hcn, payload_at_add, hs1_def]
      dsimp only
      have htk : ((v.payloads.drop S).take k).length = k := by
        simp only [List.length_take, List.length_drop]; omega
      have hconcat := List.getElem?_concat_length ((v.payloads.drop S).take k) p
      rw [htk] at hconcat
      exact hconcat
    have hs1next : c.number = s1.nextCert := by
      unfold BlockStore.nextCert
      rw [hcnum, hs1_def]
      dsimp only
      simp only [List.length_take, List.length_drop]
      omega
    set s2 : BlockStore :=
      { first := v.first + S, payloads := (v.payloads.drop S).take k ++ [p],
        certs := (v.certs.drop S).take k ++ [c] } with hs2_def
    have hpersist : s1.persist_certificate c = .ok s2 := by
      unfold BlockStore.persist_certificate
      rw [if_pos hs1next, hs1payload]
      dsimp only
      rw [if_pos hchp]
    have hproc : processResponse g s p c = .ok s2 := by
      unfold processResponse
      rw [hver]
      simp only [if_true]
      rw [show ((do
            let s1 ← s.queue_payload ⟨c.number, p⟩
            s1.persist_certificate c : Except StoreError BlockStore)) =
          (s.queue_payload ⟨c.number, p⟩).bind (fun t => t.persist_certificate c) from rfl]
      rw [hqueue]
      simpa using hpersist
    have hs2step : s2 =
        { first := v.first + S, payloads := (v.payloads.drop S).take (k + 1),
          certs := (v.certs.drop S).take (k + 1) } := by
      rw [hs2_def]
      have hPk : (v.payloads.drop S)[k]? = some p := by
        rw [List.getElem?_drop, hpv]
      have hCk : (v.certs.drop S)[k]? = some c := by
        rw [List.getElem?_drop, hcv]
      rw [List.take_succ, List.take_succ, hPk, hCk]
      rfl
    have hunfold : runFetcher g v s (r + 1) =
        (match v.payload s.nextCert, v.certificate s.nextCert with
          | some p0, some c0 =>
            (match processResponse g s p0 c0 with
              | .ok t => runFetcher g v t r
              | .error e => .error e)
          | _, _ => .ok s) := rfl
    have hvp : v.payload c.number = some p := by rw [hcnum, payload_at_add, hpv]
    have hvc : v.certificate c.number = some c := by rw [hcnum, certificate_at_add, hcv]
    rw [hunfold, hnext, ← hcnum, hvp, hvc]
    dsimp only
    rw [hproc]
    dsimp only
    rw [hs2step]
    exact ih (k + 1) (by omega)

/-- **C4.** A node bootstrapped from a snapshot at BlockNumber `S`
(`first = S + 1`, empty local history) and run with the Peer-Verified
Fetcher against a validator certified on the range `[1, V]` ends up with
exactly the suffix of the validator's certified range: its certificates
(and payloads) are `validator_certs[S+1..]`. -/
theorem C4_fetcher_suffix (g : Genesis) (v : BlockStore) (S : Nat)
    (hv : certifiedStore g v) (hfirst : v.first = 1) (hS : S ≤ v.certs.length) :
    runFetcher g v { first := S + 1, payloads := [], certs := [] }
        (v.certs.length - S) =
      .ok { first := S + 1, payloads := v.payloads.drop S,
            certs := v.certs.drop S } := by
  have h := runFetcher_complete g v hv S hS (v.certs.length - S) 0 (by omega)
  simpa [hfirst, Nat.add_comm] using h

/-- Witness for C4: a validator certified on `[1, 3]` feeds a node
snapshotted at block 1; the node ends with certificates for blocks 2, 3. -/
theorem C4_fetcher_suffix_witness :
    runFetcher ⟨[1, 2, 3, 4], 1, 7⟩
        { first := 1, payloads := [10, 20, 30],
          certs := [⟨1, 10, 4⟩, ⟨2, 20, 4⟩, ⟨3, 30, 4⟩] }
        { first := 2, payloads := [], certs := [] } 2 =
      .ok { first := 2, payloads := [20, 30], certs := [⟨2, 20, 4⟩, ⟨3, 30, 4⟩] } := by
  have hc : certifiedStore ⟨[1, 2, 3, 4], 1, 7⟩
      { first := 1, payloads := [10, 20, 30],
        certs := [⟨1, 10, 4⟩, ⟨2, 20, 4⟩, ⟨3, 30, 4⟩] } := by
    refine ⟨rfl, ?_⟩
    intro i c h
    match i with
    | 0 => cases h; exact ⟨rfl, fun p hp => by cases hp; rfl, by decide⟩
    | 1 => cases h; exact ⟨rfl, fun p hp => by cases hp; rfl, by decide⟩
    | 2 => cases h; exact ⟨rfl, fun p hp => by cases hp; rfl, by decide⟩
    | n + 3 => cases h
  have h := C4_fetcher_suffix ⟨[1, 2, 3, 4], 1, 7⟩
    { first := 1, payloads := [10, 20, 30],
      certs := [⟨1, 10, 4⟩, ⟨2, 20, 4⟩, ⟨3, 30, 4⟩] } 1
    hc (by rfl) (by decide)
  simpa using h

/-- Modelled from the spec: the consensus engine as a black box (spec §2,
§6): given the validator set and a payload it produces a quorum
certificate binding the payload's hash to the given block number. -/
def engineCertify (g : Genesis) (n : Nat) (p : Payload) : Certificate :=
  { number := n, hash := payloadHash p, sigs := g.validators.length }

/-- Modelled from the spec: one iteration of the Certifying Role
(spec §4.3), missing from the provided sources: await the payload for
`last_certificate + 1` (no-op while it is absent), drive the consensus
engine to a certificate, and persist it through the Block Store. -/
def roleStep (g : Genesis) (s : BlockStore) : Except StoreError BlockStore :=
  match s.payload s.nextCert with
  | some p => s.persist_certificate (engineCertify g s.nextCert p)
  | none => .ok s

/-- The Certifying Role run as one loop for the given number of iterations. -/
def runRole (g : Genesis) (s : BlockStore) : Nat → Except StoreError BlockStore
  | 0 => .ok s
  | n + 1 =>
    match roleStep g s with
    | .ok s1 => runRole g s1 n
    | .error e => .error e

/-- The Certifying Role restarted once per block: after processing `n`
blocks the role is restarted (carrying no state of its own, only what is
persisted in the store) and processes one more block. -/
def runRolePerBlock (g : Genesis) (s : BlockStore) : Nat → Except StoreError BlockStore
  | 0 => .ok s
  | n + 1 =>
    match runRolePerBlock g s n with
    | .ok s1 => runRole g s1 1
    | .error e => .error e

theorem runRole_add (g : Genesis) (m n : Nat) :
    ∀ s, runRole g s (m + n) =
      match runRole g s m with
      | .ok s1 => runRole g s1 n
      | .error e => .error e := by
  induction m with
  | zero =>
    intro s
    rw [Nat.zero_add]
    rfl
  | succ m ih =>
    intro s
    have hadd : m + 1 + n = (m + n) + 1 := by omega
    rw [hadd]
    show (match roleStep g s with
      | .ok s1 => runRole g s1 (m + n)
      | .error e => .error e) =
      match runRole g s (m + 1) with
      | .ok s1 => runRole g s1 n
      | .error e => .error e
    have hm1 : runRole g s (m + 1) =
        (match roleStep g s with
          | .ok s1 => runRole g s1 m
          | .error e => .error e) := rfl
    rw [hm1]
    cases hrs : roleStep g s with
    | ok s1 =>
      dsimp only
      exact ih s1
    | error e => rfl

theorem runRolePerBlock_eq (g : Genesis) :
    ∀ n s, runRolePerBlock g s n = runRole g s n := by
  intro n
  induction n with
  | zero => intro s; rfl
  | succ n ih =>
    intro s
    show (match runRolePerBlock g s n with
      | .ok s1 => runRole g s1 1
      | .error e => .error e) = _
    rw [ih s, runRole_add g n 1 s]

theorem payload_mk (f i : Nat) (P : List Payload) (C : List Certificate) :
    BlockStore.payload ⟨f, P, C⟩ (f + i) = P[i]? := payload_at_add ⟨f, P, C⟩ i

theorem runRole_backfill (g : Genesis) (f : Nat) (ps : List Payload) :
    ∀ r acc, acc.length + r ≤ ps.length →
      (∀ i c, acc[i]? = some c → ∃ p, ps[i]? = some p ∧ c = engineCertify g (f + i) p) →
      ∃ final : List Certificate,
        runRole g ⟨f, ps, acc⟩ r = .ok ⟨f, ps, final⟩ ∧
        final.length = acc.length + r ∧
        (∀ i c, final[i]? = some c → ∃ p, ps[i]? = some p ∧ c = engineCertify g (f + i) p) := by
  intro r
  induction r with
  | zero =>
    intro acc hle hacc
    exact ⟨acc, rfl, rfl, hacc⟩
  | succ r ih =>
    intro acc hle hacc
    have hklt : acc.length < ps.length := by omega
    obtain ⟨p, hp⟩ : ∃ q, ps[acc.length]? = some q :=
      ⟨_, List.getElem?_eq_getElem hklt⟩
    set e := engineCertify g (f + acc.length) p with he_def
    have hnext : BlockStore.nextCert ⟨f, ps, acc⟩ = f + acc.length := rfl
    have hper : BlockStore.persist_certificate ⟨f, ps, acc⟩ e = .ok ⟨f, ps, acc ++ [e]⟩ := by
      unfold BlockStore.persist_certificate
      rw [if_pos (show e.number = BlockStore.nextCert ⟨f, ps, acc⟩ from rfl)]
      rw [show e.number = f + acc.length from rfl, payload_mk, hp]
      dsimp only
      rw [if_pos (show e.hash = payloadHash p from rfl)]
    have hrs : roleStep g ⟨f, ps, acc⟩ = .ok ⟨f, ps, acc ++ [e]⟩ := by
      unfold roleStep
      rw [hnext, payload_mk, hp]
      dsimp only
      rw [← hnext]
      exact hper
    have hext : ∀ i c, (acc ++ [e])[i]? = some c →
        ∃ q, ps[i]? = some q ∧ c = engineCertify g (f + i) q := by
      intro i c hic
      by_cases hik : i < acc.length
      · rw [List.getElem?_append_left hik] at hic
        exact hacc i c hic
      · by_cases hieq : i = acc.length
        · subst hieq
          rw [List.getElem?_concat_length] at hic
          cases hic
          exact ⟨p, hp, rfl⟩
        · have hnone : (acc ++ [e]).length ≤ i := by
            rw [List.length_append]
            simp only [List.length_cons, List.length_nil]
            omega
          rw [List.getElem?_eq_none hnone] at hic
          cases hic
    obtain ⟨final, hrun, hflen, hfchar⟩ := ih (acc ++ [e])
      (by rw [List.length_append]; simp only [List.length_cons, List.length_nil]; omega) hext
    refine ⟨final, ?_, ?_, hfchar⟩
    · show (match roleStep g ⟨f, ps, acc⟩ with
        | .ok s1 => runRole g s1 r
        | .error e0 => .error e0) = _
      rw [hrs]
      exact hrun
    · rw [hflen, List.length_append]
      simp only [List.length_cons, List.length_nil]
      omega

/-- **C5.** Backfill determinism: over a fixed sequence of 10 payloads
already in storage, the Certifying Role produces one definite certificate
sequence for blocks 1..10, and it is identical whether the role runs once
over all 10 payloads or is restarted once per block. -/
theorem C5_backfill_determinism (g : Genesis) (ps : List Payload) (h10 : ps.length = 10) :
    ∃ final : List Certificate,
      runRole g ⟨1, ps, []⟩ 10 = .ok ⟨1, ps, final⟩ ∧
      runRolePerBlock g ⟨1, ps, []⟩ 10 = .ok ⟨1, ps, final⟩ ∧
      final.length = 10 ∧
      ∀ i c, final[i]? = some c →
        ∃ p, ps[i]? = some p ∧ c = engineCertify g (1 + i) p := by
  obtain ⟨final, hrun, hflen, hfchar⟩ := runRole_backfill g 1 ps 10 []
    (by simp [h10]) (by intro i c hic; simp at hic)
  refine ⟨final, hrun, ?_, by simpa using hflen, hfchar⟩
  rw [runRolePerBlock_eq]
  exact hrun

/-- Witness for C5: the role certifies ten concrete payloads the same way
in batch mode as restarted per block. -/
theorem C5_backfill_determinism_witness :
    ∃ final : List Certificate,
      runRole ⟨[1, 2, 3, 4], 1, 7⟩ ⟨1, [3, 1, 4, 1, 5, 9, 2, 6, 5, 3], []⟩ 10 =
        .ok ⟨1, [3, 1, 4, 1, 5, 9, 2, 6, 5, 3], final⟩ ∧
      runRolePerBlock ⟨[1, 2, 3, 4], 1, 7⟩ ⟨1, [3, 1, 4, 1, 5, 9, 2, 6, 5, 3], []⟩ 10 =
        .ok ⟨1, [3, 1, 4, 1, 5, 9, 2, 6, 5, 3], final⟩ ∧
      final.length = 10 ∧
      ∀ i c, final[i]? = some c →
        ∃ p, ([3, 1, 4, 1, 5, 9, 2, 6, 5, 3] : List Payload)[i]? = some p ∧
          c = engineCertify ⟨[1, 2, 3, 4], 1, 7⟩ (1 + i) p :=
  C5_backfill_determinism ⟨[1, 2, 3, 4], 1, 7⟩ [3, 1, 4, 1, 5, 9, 2, 6, 5, 3] (by rfl)

theorem queue_payload_frame {s t : BlockStore} {b : Block}
    (h : s.queue_payload b = .ok t) :
    t.certs = s.certs ∧ t.first = s.first ∧ ∃ ext, t.payloads = s.payloads ++ ext := by
  unfold BlockStore.queue_payload at h
  split at h
  · cases h
    exact ⟨rfl, rfl, [b.payload], rfl⟩
  · split at h
    · split at h
      · cases h
        exact ⟨rfl, rfl, [], by simp⟩
      · cases h
    · cases h

/-- Modelled from the spec: one poll of the Trust-Based (centralized)
Fetcher (spec §4.5), missing from the provided sources: fetch the payload
for the next block beyond the local `last_payload` from the single
configured upstream and persist it via the Block Store's payload path
only; an unavailable upstream leaves the store untouched (retried with
backoff, never fatal). -/
def centralStep (upstream s : BlockStore) : BlockStore :=
  match upstream.payload s.nextPayload with
  | some p =>
    match s.queue_payload ⟨s.nextPayload, p⟩ with
    | .ok s1 => s1
    | .error _ => s
  | none => s

/-- The Trust-Based Fetcher polled for the given number of rounds. -/
def runCentralized (upstream s : BlockStore) : Nat → BlockStore
  | 0 => s
  | n + 1 => runCentralized upstream (centralStep upstream s) n

theorem centralStep_frame (upstream s : BlockStore) :
    (centralStep upstream s).certs = s.certs ∧
    (centralStep upstream s).first = s.first ∧
    ∃ ext, (centralStep upstream s).payloads = s.payloads ++ ext := by
  unfold centralStep
  cases hup : upstream.payload s.nextPayload with
  | none => exact ⟨rfl, rfl, [], by simp⟩
  | some p =>
    dsimp only
    cases hq : s.queue_payload ⟨s.nextPayload, p⟩ with
    | error e => exact ⟨rfl, rfl, [], by simp⟩
    | ok s1 => exact queue_payload_frame hq

/-- **C7.** Frame property of the Trust-Based Fetcher: any number of
polling rounds leaves `first`, the certificates and hence
`last_certificate` unchanged; only the payload suffix may grow. -/
theorem C7_centralized_frame (upstream s : BlockStore) (n : Nat) :
    (runCentralized upstream s n).certs = s.certs ∧
    (runCentralized upstream s n).first = s.first ∧
    (runCentralized upstream s n).last_certificate = s.last_certificate ∧
    ∃ ext, (runCentralized upstream s n).payloads = s.payloads ++ ext := by
  have main : ∀ m t, (runCentralized upstream t m).certs = t.certs ∧
      (runCentralized upstream t m).first = t.first ∧
      ∃ ext, (runCentralized upstream t m).payloads = t.payloads ++ ext := by
    intro m
    induction m with
    | zero => exact fun t => ⟨rfl, rfl, [], by simp [runCentralized]⟩
    | succ m ih =>
      intro t
      have hstep : runCentralized upstream t (m + 1) =
          runCentralized upstream (centralStep upstream t) m := rfl
      obtain ⟨hc1, hf1, ext1, hp1⟩ := centralStep_frame upstream t
      obtain ⟨hc2, hf2, ext2, hp2⟩ := ih (centralStep upstream t)
      refine ⟨?_, ?_, ext1 ++ ext2, ?_⟩
      · rw [hstep, hc2, hc1]
      · rw [hstep, hf2, hf1]
      · rw [hstep, hp2, hp1, List.append_assoc]
  obtain ⟨hc, hf, ext, hp⟩ := main n s
  refine ⟨hc, hf, ?_, ext, hp⟩
  unfold BlockStore.last_certificate
  rw [hc, hf]

/-- Per-`(circuit_id, aggregation_round)` prover job statistics as read
from the prover database (`get_prover_jobs_stats`). -/
structure JobStats where
  queued : Nat
  in_progress : Nat
deriving DecidableEq

/-- The prover database state visible to the reporter: the stored
per-`(circuit_id, aggregation_round)` job statistics. -/
structure ProverDb where
  prover_jobs_stats : List ((Nat × Nat) × JobStats)
deriving DecidableEq

/-- One emitted `fri_prover.prover.jobs` gauge sample with its labels
(fri_prover_queue_reporter.rs lines 62-80; the label called `type` in
the source is `kind` here, the constant `protocol_version` label is
omitted). -/
structure JobsMetric where
  value : Nat
  kind : String
  circuit_id : Nat
  aggregation_round : Nat
  prover_group_id : Nat
deriving DecidableEq

/-- The `fri_prover.prover.jobs` gauges emitted by the per-stat loop of
`FriProverQueueReporter::run_routine_task` (fri_prover_queue_reporter.rs
lines 43-81): for `aggregation_round == 2` the stored `circuit_id` is
replaced by the sentinel `2` in the metric labels (the single node-level
aggregation circuit workaround); `groupFor` models
`config.get_group_id_for_circuit_id_and_aggregation_round`, with
`u8::MAX = 255` as the `unwrap_or` fallback. -/
def reportJobs (groupFor : Nat → Nat → Option Nat)
    (stats : List ((Nat × Nat) × JobStats)) : List JobsMetric :=
  stats.flatMap (fun entry =>
    [ { value := entry.2.queued, kind := "queued",
        circuit_id := if entry.1.2 = 2 then 2 else entry.1.1,
        aggregation_round := entry.1.2,
        prover_group_id :=
          (groupFor (if entry.1.2 = 2 then 2 else entry.1.1) entry.1.2).getD 255 },
      { value := entry.2.in_progress, kind := "in_progress",
        circuit_id := if entry.1.2 = 2 then 2 else entry.1.1,
        aggregation_round := entry.1.2,
        prover_group_id :=
          (groupFor (if entry.1.2 = 2 then 2 else entry.1.1) entry.1.2).getD 255 } ])

/-- The job-stats part of `FriProverQueueReporter::run_routine_task`: it
reads the stored stats and emits metrics; the stored data is returned
untouched. -/
def run_routine_task (groupFor : Nat → Nat → Option Nat) (db : ProverDb) :
    ProverDb × List JobsMetric :=
  (db, reportJobs groupFor db.prover_jobs_stats)

/-- **C8.** Every metric emitted by `run_routine_task` labels its
`circuit_id` as the sentinel `2` when the stat's aggregation round is 2
and as the stored `circuit_id` otherwise; each stored stat is reported
that way, and the stored data itself is left unchanged. -/
theorem C8_circuit_id_relabel (groupFor : Nat → Nat → Option Nat) (db : ProverDb) :
    (run_routine_task groupFor db).1 = db ∧
    (∀ m, m ∈ (run_routine_task groupFor db).2 →
      ∃ cid ar st, ((cid, ar), st) ∈ db.prover_jobs_stats ∧
        m.aggregation_round = ar ∧
        m.circuit_id = if ar = 2 then 2 else cid) ∧
    (∀ cid ar st, ((cid, ar), st) ∈ db.prover_jobs_stats →
      ({ value := st.queued, kind := "queued",
         circuit_id := if ar = 2 then 2 else cid,
         aggregation_round := ar,
         prover_group_id := (groupFor (if ar = 2 then 2 else cid) ar).getD 255 } :
        JobsMetric) ∈ (run_routine_task groupFor db).2) := by
  refine ⟨rfl, ?_, ?_⟩
  · intro m hm
    unfold run_routine_task reportJobs at hm
    dsimp only at hm
    rw [List.mem_flatMap] at hm
    obtain ⟨entry, hentry, hm2⟩ := hm
    obtain ⟨⟨cid, ar⟩, st⟩ := entry
    dsimp only at hm2
    simp only [List.mem_cons, List.not_mem_nil, or_false] at hm2
    rcases hm2 with rfl | rfl
    · exact ⟨cid, ar, st, hentry, rfl, rfl⟩
    · exact ⟨cid, ar, st, hentry, rfl, rfl⟩
  · intro cid ar st hmem
    unfold run_routine_task reportJobs
    dsimp only
    rw [List.mem_flatMap]
    exact ⟨((cid, ar), st), hmem, List.Mem.head _⟩

/-- Witness for C8: a round-2 stat for stored circuit 5 is reported with
`circuit_id = 2`, and the stored stats are returned unchanged. -/
theorem C8_circuit_id_relabel_witness :
    (run_routine_task (fun _ _ => none)
        ⟨[((5, 2), ⟨1, 2⟩), ((7, 0), ⟨3, 4⟩)]⟩).1 =
      ⟨[((5, 2), ⟨1, 2⟩), ((7, 0), ⟨3, 4⟩)]⟩ ∧
    ({ value := 1, kind := "queued", circuit_id := 2, aggregation_round := 2,
       prover_group_id := 255 } : JobsMetric) ∈
      (run_routine_task (fun _ _ => none)
        ⟨[((5, 2), ⟨1, 2⟩), ((7, 0), ⟨3, 4⟩)]⟩).2 := by
  have h := C8_circuit_id_relabel (fun _ _ => none)
    ⟨[((5, 2), ⟨1, 2⟩), ((7, 0), ⟨3, 4⟩)]⟩
  refine ⟨h.1, ?_⟩
  have h2 := h.2.2 5 2 ⟨1, 2⟩ (List.Mem.head _)
  simpa using h2

/-- A stored `factory_deps` row: the bytecode and the miniblock number it
was first inserted at (`created_at`/`updated_at` omitted). -/
structure FactoryDep where
  bytecode : List Nat
  miniblock_number : Nat
deriving DecidableEq

/-- Database-level errors of the DAL (`DalResult`): only transport-level
failures, no content-conflict variant exists for this insert. -/
inductive DalError where
  | DatabaseError
deriving DecidableEq

/-- One row of the SQL `INSERT ... SELECT ... FROM UNNEST($1, $2)` with
`ON CONFLICT (bytecode_hash) DO NOTHING` (factory_deps_dal.rs lines
31-48): a new hash is appended, an already-present hash leaves the
table unchanged. -/
def insertRow (table : List (Nat × FactoryDep)) (h : Nat) (bc : List Nat)
    (block_number : Nat) : List (Nat × FactoryDep) :=
  if (table.lookup h).isSome then table
  else table ++ [(h, { bytecode := bc, miniblock_number := block_number })]

/-- `FactoryDepsDal::insert_factory_deps` (factory_deps_dal.rs lines
20-56): inserts the given `(bytecode_hash, bytecode)` pairs for a
miniblock, silently skipping every hash already present. -/
def insert_factory_deps (table : List (Nat × FactoryDep)) (block_number : Nat)
    (factory_deps : List (Nat × List Nat)) :
    Except DalError (List (Nat × FactoryDep)) :=
  .ok (factory_deps.foldl (fun t dep => insertRow t dep.1 dep.2 block_number) table)

theorem lookup_append_of_some {t : List (Nat × FactoryDep)} {h : Nat} {r : FactoryDep}
    (hl : t.lookup h = some r) (l : List (Nat × FactoryDep)) :
    (t ++ l).lookup h = some r := by
  induction t with
  | nil => cases hl
  | cons a t ih =>
    obtain ⟨k, v⟩ := a
    rw [List.cons_append, List.lookup_cons] at *
    cases hbeq : h == k with
    | true =>
      rw [hbeq] at hl
      exact hl
    | false =>
      rw [hbeq] at hl
      exact ih hl

theorem insertRow_keeps {t : List (Nat × FactoryDep)} {h : Nat} {r : FactoryDep}
    (hl : t.lookup h = some r) (h2 : Nat) (bc : List Nat) (bn : Nat) :
    (insertRow t h2 bc bn).lookup h = some r := by
  unfold insertRow
  split
  · exact hl
  · exact lookup_append_of_some hl _

theorem foldl_insertRow_keeps (deps : List (Nat × List Nat)) :
    ∀ (t : List (Nat × FactoryDep)) (h : Nat) (r : FactoryDep) (bn : Nat),
      t.lookup h = some r →
      (deps.foldl (fun t0 dep => insertRow t0 dep.1 dep.2 bn) t).lookup h = some r := by
  induction deps with
  | nil =>
    intro t h r bn hl
    exact hl
  | cons d deps ih =>
    intro t h r bn hl
    exact ih _ h r bn (insertRow_keeps hl d.1 d.2 bn)

/-- **C9.** `insert_factory_deps` with a `bytecode_hash` already stored
succeeds and leaves the previously stored bytecode and miniblock number
for that hash unchanged — even when the newly supplied bytecode differs
— with no content-mismatch error surfaced. -/
theorem C9_insert_factory_deps_conflict (table : List (Nat × FactoryDep))
    (block_number : Nat) (factory_deps : List (Nat × List Nat))
    (h : Nat) (r : FactoryDep) (hpresent : table.lookup h = some r) :
    ∃ t, insert_factory_deps table block_number factory_deps = .ok t ∧
      t.lookup h = some r :=
  ⟨_, rfl, foldl_insertRow_keeps factory_deps table h r block_number hpresent⟩

/-- Witness for C9: re-inserting hash 5 with different bytecode leaves
the stored row for hash 5 unchanged and the call succeeds. -/
theorem C9_insert_factory_deps_conflict_witness :
    ∃ t, insert_factory_deps [(5, ⟨[1, 2], 3⟩)] 8 [(5, [9, 9])] = .ok t ∧
      t.lookup 5 = some ⟨[1, 2], 3⟩ :=
  C9_insert_factory_deps_conflict [(5, ⟨[1, 2], 3⟩)] 8 [(5, [9, 9])] 5 ⟨[1, 2], 3⟩ (by rfl)

/-- A batch response as assembled by the boxed client: the per-call
results in request order plus the counters handed to
`BatchResponse::new(successful_calls, responses, failed_calls)`
(boxed.rs lines 142-146). -/
structure BatchResponse (E R : Type) where
  successful_calls : Nat
  responses : List (Except E R)
  failed_calls : Nat

/-- The error with which the whole batch call aborts when a raw `Ok`
sub-response fails to deserialize (`Error::ParseError` raised by the
`?` operator in boxed.rs line 134). -/
inductive RpcError where
  | ParseError
deriving DecidableEq

/-- The number of `Ok` raw sub-responses. -/
def countOk {E J : Type} : List (Except E J) → Nat
  | [] => 0
  | .ok _ :: rest => countOk rest + 1
  | .error _ :: rest => countOk rest

/-- The number of `Err` raw sub-responses. -/
def countErr {E J : Type} : List (Except E J) → Nat
  | [] => 0
  | .ok _ :: rest => countErr rest
  | .error _ :: rest => countErr rest + 1

/-- The loop of `ClientT for &DynClient::batch_request` (boxed.rs lines
126-147) over the raw sub-responses: an `Ok` raw response is decoded and
counted as successful — a decode failure aborts the whole call via `?`
with `ParseError` — and an `Err` raw response is pushed unchanged and
counted as failed.  `decode` models `serde_json::from_value::<R>`. -/
def batchLoop {J R E : Type} (decode : J → Option R) :
    List (Except E J) → Nat → Nat → List (Except E R) →
    Except RpcError (BatchResponse E R)
  | [], successful, failed, acc => .ok ⟨successful, acc.reverse, failed⟩
  | .ok json :: rest, successful, failed, acc =>
    match decode json with
    | some r => batchLoop decode rest (successful + 1) failed (.ok r :: acc)
    | none => .error .ParseError
  | .error e :: rest, successful, failed, acc =>
    batchLoop decode rest successful (failed + 1) (.error e :: acc)

/-- `batch_request` of the boxed `DynClient`, starting from the raw
sub-responses returned by the underlying object-safe client. -/
def batch_request {J R E : Type} (decode : J → Option R)
    (raw_responses : List (Except E J)) : Except RpcError (BatchResponse E R) :=
  batchLoop decode raw_responses 0 0 []

theorem batchLoop_ok {J R E : Type} (decode : J → Option R) :
    ∀ (rest : List (Except E J)) (successful failed : Nat) (acc : List (Except E R)),
      (∀ j, Except.ok j ∈ rest → ∃ r, decode j = some r) →
      ∃ resp : BatchResponse E R,
        batchLoop decode rest successful failed acc = .ok resp ∧
        resp.successful_calls = successful + countOk rest ∧
        resp.failed_calls = failed + countErr rest ∧
        resp.responses.length = acc.length + rest.length ∧
        (∀ i, i < acc.length → resp.responses[i]? = acc.reverse[i]?) ∧
        (∀ i e, rest[i]? = some (.error e) →
          resp.responses[acc.length + i]? = some (.error e)) ∧
        (∀ i j, rest[i]? = some (.ok j) →
          ∃ r, decode j = some r ∧ resp.responses[acc.length + i]? = some (.ok r)) := by
  intro rest
  induction rest with
  | nil =>
    intro successful failed acc hdec
    refine ⟨⟨successful, acc.reverse, failed⟩, rfl, rfl, rfl, ?_, ?_, ?_, ?_⟩
    · simp
    · intro i hi
      rfl
    · intro i e h
      simp at h
    · intro i j h
      simp at h
  | cons x rest ih =>
    intro successful failed acc hdec
    cases x with
    | ok j =>
      obtain ⟨r0, hr0⟩ := hdec j (List.Mem.head _)
      have hstep : batchLoop decode (Except.ok j :: rest) successful failed acc =
          batchLoop decode rest (successful + 1) failed (.ok r0 :: acc) := by
        show (match decode j with
          | some r => batchLoop decode rest (successful + 1) failed (.ok r :: acc)
          | none => .error .ParseError) = _
        rw [hr0]
      obtain ⟨resp, hrun, hsucc, hfail, hlen, hpre, herr, hok⟩ :=
        ih (successful + 1) failed (.ok r0 :: acc)
          (fun j2 hj2 => hdec j2 (List.Mem.tail _ hj2))
      refine ⟨resp, by rw [hstep]; exact hrun, ?_, ?_, ?_, ?_, ?_, ?_⟩
      · rw [hsucc]
        show _ = successful + (countOk rest + 1)
        omega
      · exact hfail
      · rw [hlen]
        simp only [List.length_cons]
        omega
      · intro i hi
        have h1 := hpre i (by simp only [List.length_cons]; omega)
        rw [List.reverse_cons] at h1
        rw [h1, List.getElem?_append_left (by rw [List.length_reverse]; exact hi)]
      · intro i e h
        match i with
        | 0 =>
          rw [List.getElem?_cons_zero] at h
          cases h
        | i + 1 =>
          rw [List.getElem?_cons_succ] at h
          have h2 := herr i e h
          simp only [List.length_cons] at h2
          rw [show acc.length + (i + 1) = acc.length + 1 + i by omega]
          exact h2
      · intro i j2 h
        match i with
        | 0 =>
          rw [List.getElem?_cons_zero] at h
          cases h
          have h1 := hpre acc.length (by simp only [List.length_cons]; omega)
          rw [List.reverse_cons] at h1
          have h2 := List.getElem?_concat_length acc.reverse (Except.ok r0)
          rw [List.length_reverse] at h2
          rw [h2] at h1
          exact ⟨r0, hr0, h1⟩
        | i + 1 =>
          rw [List.getElem?_cons_succ] at h
          obtain ⟨r, hr, hresp⟩ := hok i j2 h
          simp only [List.length_cons] at hresp
          rw [show acc.length + (i + 1) = acc.length + 1 + i by omega]
          exact ⟨r, hr, hresp⟩
    | error e0 =>
      have hstep : batchLoop decode (Except.error e0 :: rest) successful failed acc =
          batchLoop decode rest successful (failed + 1) (.error e0 :: acc) := rfl
      obtain ⟨resp, hrun, hsucc, hfail, hlen, hpre, herr, hok⟩ :=
        ih successful (failed + 1) (.error e0 :: acc)
          (fun j2 hj2 => hdec j2 (List.Mem.tail _ hj2))
      refine ⟨resp, by rw [hstep]; exact hrun, ?_, ?_, ?_, ?_, ?_, ?_⟩
      · exact hsucc
      · rw [hfail]
        show _ = failed + (countErr rest + 1)
        omega
      · rw [hlen]
        simp only [List.length_cons]
        omega
      · intro i hi
        have h1 := hpre i (by simp only [List.length_cons]; omega)
        rw [List.reverse_cons] at h1
        rw [h1, List.getElem?_append_left (by rw [List.length_reverse]; exact hi)]
      · intro i e h
        match i with
        | 0 =>
          rw [List.getElem?_cons_zero] at h
          cases h
          have h1 := hpre acc.length (by simp only [List.length_cons]; omega)
          rw [List.reverse_cons] at h1
          have h2 := List.getElem?_concat_length acc.reverse
            (Except.error e0 : Except E R)
          rw [List.length_reverse] at h2
          rw [h2] at h1
          exact h1
        | i + 1 =>
          rw [List.getElem?_cons_succ] at h
          have h2 := herr i e h
          simp only [List.length_cons] at h2
          rw [show acc.length + (i + 1) = acc.length + 1 + i by omega]
          exact h2
      · intro i j2 h
        match i with
        | 0 =>
          rw [List.getElem?_cons_zero] at h
          simp at h
        | i + 1 =>
          rw [List.getElem?_cons_succ] at h
          obtain ⟨r, hr, hresp⟩ := hok i j2 h
          simp only [List.length_cons] at hresp
          rw [show acc.length + (i + 1) = acc.length + 1 + i by omega]
          exact ⟨r, hr, hresp⟩

theorem batchLoop_err {J R E : Type} (decode : J → Option R) :
    ∀ (rest : List (Except E J)) (successful failed : Nat) (acc : List (Except E R)),
      (∃ j, Except.ok j ∈ rest ∧ decode j = none) →
      batchLoop decode rest successful failed acc = .error .ParseError := by
  intro rest
  induction rest with
  | nil =>
    intro _ _ _ hbad
    obtain ⟨j, hj, -⟩ := hbad
    cases hj
  | cons x rest ih =>
    intro successful failed acc hbad
    cases x with
    | ok j0 =>
      cases hd : decode j0 with
      | none =>
        show (match decode j0 with
          | some r => batchLoop decode rest (successful + 1) failed (.ok r :: acc)
          | none => .error .ParseError) = _
        rw [hd]
      | some r0 =>
        have hbad2 : ∃ j, Except.ok j ∈ rest ∧ decode j = none := by
          obtain ⟨j, hj, hjn⟩ := hbad
          cases hj with
          | head =>
            rw [hd] at hjn
            cases hjn
          | tail _ hjt => exact ⟨j, hjt, hjn⟩
        show (match decode j0 with
          | some r => batchLoop decode rest (successful + 1) failed (.ok r :: acc)
          | none => .error .ParseError) = _
        rw [hd]
        exact ih _ _ _ hbad2
    | error e0 =>
      obtain ⟨j, hj, hjn⟩ := hbad
      have hj2 : Except.ok j ∈ rest := by
        cases hj with
        | tail _ h => exact h
      exact ih _ _ _ ⟨j, hj2, hjn⟩

/-- **C10.** `batch_request` of the boxed client: when every `Ok` raw
sub-response deserializes, the call succeeds with the sub-responses
preserved in order, `successful_calls` equal to the number of `Ok` raw
sub-responses and `failed_calls` equal to the number of `Err` ones; when
some `Ok` raw sub-response fails to deserialize, the entire call returns
`ParseError` instead of recording that entry as a failed call. -/
theorem C10_batch_request_contract (J R E : Type) (decode : J → Option R)
    (raw : List (Except E J)) :
    ((∀ j, Except.ok j ∈ raw → ∃ r, decode j = some r) →
      ∃ resp : BatchResponse E R,
        batch_request decode raw = .ok resp ∧
        resp.successful_calls = countOk raw ∧
        resp.failed_calls = countErr raw ∧
        resp.responses.length = raw.length ∧
        (∀ (i : Nat) (e : E), raw[i]? = some (Except.error e) →
          resp.responses[i]? = some (Except.error e)) ∧
        (∀ (i : Nat) (j : J), raw[i]? = some (Except.ok j) →
          ∃ r, decode j = some r ∧ resp.responses[i]? = some (Except.ok r))) ∧
    ((∃ j, Except.ok j ∈ raw ∧ decode j = none) →
      batch_request decode raw = .error .ParseError) := by
  constructor
  · intro hdec
    obtain ⟨resp, hrun, hsucc, hfail, hlen, hpre, herr, hok⟩ :=
      batchLoop_ok decode raw 0 0 [] hdec
    refine ⟨resp, hrun, by simpa using hsucc, by simpa using hfail,
      by simpa using hlen, ?_, ?_⟩
    · intro i e h
      have h2 := herr i e h
      simpa using h2
    · intro i j h
      have h2 := hok i j h
      simpa using h2
  · intro hbad
    exact batchLoop_err decode raw 0 0 [] hbad

/-- Witness for C10: a batch of `[Ok 1, Err 5, Ok 2]` under a total
decoder yields one failed and two successful ordered entries, while a
decoder rejecting its input makes the whole call return `ParseError`. -/
theorem C10_batch_request_contract_witness :
    (∃ resp : BatchResponse Nat Nat,
      batch_request (fun j => some (j + 1)) [.ok 1, .error 5, .ok 2] = .ok resp ∧
      resp.successful_calls = countOk [(.ok 1 : Except Nat Nat), .error 5, .ok 2] ∧
      resp.failed_calls = countErr [(.ok 1 : Except Nat Nat), .error 5, .ok 2] ∧
      resp.responses.length = [(.ok 1 : Except Nat Nat), .error 5, .ok 2].length ∧
      (∀ (i e : Nat), [(.ok 1 : Except Nat Nat), .error 5, .ok 2][i]? = some (Except.error e) →
        resp.responses[i]? = some (Except.error e)) ∧
      (∀ (i j : Nat), [(.ok 1 : Except Nat Nat), .error 5, .ok 2][i]? = some (Except.ok j) →
        ∃ r, (fun j0 => some (j0 + 1)) j = some r ∧
          resp.responses[i]? = some (Except.ok r))) ∧
    batch_request (fun _ : Nat => (none : Option Nat)) [(.ok 1 : Except Nat Nat)] =
      .error .ParseError := by
  constructor
  · exact (C10_batch_request_contract Nat Nat Nat (fun j => some (j + 1))
      [.ok 1, .error 5, .ok 2]).1 (fun j _ => ⟨j + 1, rfl⟩)
  · exact (C10_batch_request_contract Nat Nat Nat (fun _ => none)
      [.ok 1]).2 ⟨1, List.Mem.head _, rfl⟩
